import Mathlib

set_option autoImplicit false

/-!
Verification of the two lock-free SPSC primitives of rt_utils: the bounded
ring-buffer channel (src/spsc.rs) and the triple buffer
(src/triple_buffer.rs).  The embedding is sequential: the atomic cursors and
the atomic state word become plain naturals, and each public operation is a
pure state transformer.  Values that an operation drops (finalizes) are
returned explicitly so that finalization accounting can be stated.
-/

namespace Spsc

/-- Shallow embedding of the struct RingBuffer from src/spsc.rs.  The raw
allocation of `size` slots behind the `entries` pointer is modelled as a list
of optional values (`none` stands for an uninitialized slot); `size` is the
struct field, set to `capacity + 1` by the constructor; the two atomic
cursors are plain naturals since the embedding is sequential.  The padding
fields are layout-only and carry no state. -/
structure RingBuffer (T : Type) where
  entries : List (Option T)
  size : Nat
  write_index : Nat
  read_index : Nat
  deriving DecidableEq

/-- Free function available_read of src/spsc.rs.  Natural subtraction never
underflows at the cursor values reachable by the operations, where it agrees
with the Rust usize arithmetic. -/
def available_read (write_index read_index size : Nat) : Nat :=
  if write_index ≥ read_index then
    write_index - read_index
  else
    write_index + size - read_index

/-- Free function available_write of src/spsc.rs. -/
def available_write (write_index read_index size : Nat) : Nat :=
  if write_index ≥ read_index then
    read_index + size - write_index - 1
  else
    read_index - write_index - 1

/-- RingBuffer::try_write (called by Sender::try_send).  Returns the new
state, the boolean result, and the list of values the call finalizes: Rust
passes `value` by move, so on the full branch the early `return false` drops
it — the model records that drop as `[value]`. -/
def RingBuffer.try_write {T : Type} (rb : RingBuffer T) (value : T) :
    RingBuffer T × Bool × List T :=
  let write_index := rb.write_index
  let read_index := rb.read_index
  if available_write write_index read_index rb.size = 0 then
    (rb, false, [value])
  else
    ({ rb with
        entries := rb.entries.set write_index (some value),
        write_index := (write_index + 1) % rb.size },
     true, [])

/-- RingBuffer::try_read (called by Receiver::try_recv).  The ptr::read of
the slot at the read cursor is modelled by `getD read_index none`; in every
reachable non-empty state that slot holds a value. -/
def RingBuffer.try_read {T : Type} (rb : RingBuffer T) :
    RingBuffer T × Option T :=
  let write_index := rb.write_index
  let read_index := rb.read_index
  if available_read write_index read_index rb.size = 0 then
    (rb, none)
  else
    ({ rb with read_index := (read_index + 1) % rb.size },
     rb.entries.getD read_index none)

/-- RingBuffer::clear (called by Sender::clear): stores zero into both
cursors and touches nothing else.  The second component is the list of
values the call finalizes — empty, since the body contains no drop. -/
def RingBuffer.clear {T : Type} (rb : RingBuffer T) : RingBuffer T × List T :=
  ({ rb with write_index := 0, read_index := 0 }, [])

/-- Happy path of RingBuffer::new: one fresh allocation of `size + 1`
uninitialized slots, the `size` field set to `size + 1`, both cursors zero. -/
def RingBuffer.init (T : Type) (size : Nat) : RingBuffer T :=
  { entries := List.replicate (size + 1) none,
    size := size + 1,
    write_index := 0,
    read_index := 0 }

/-- RingBuffer::new with its precondition: the body asserts `size > 0` and
panics otherwise, modelled as `none`. -/
def RingBuffer.new (T : Type) (size : Nat) : Option (RingBuffer T) :=
  if size > 0 then some (RingBuffer.init T size) else none

/-- The channel constructor: builds the shared RingBuffer handed to both the
Sender and the Receiver (the Arc sharing collapses in the sequential
model, so the shared buffer itself represents the pair of handles). -/
def channel (T : Type) (size : Nat) : Option (RingBuffer T) :=
  RingBuffer.new T size

/-- Folds try_write over a list of values, keeping the state. -/
def sendAll {T : Type} : RingBuffer T → List T → RingBuffer T
  | rb, [] => rb
  | rb, v :: vs => sendAll (rb.try_write v).1 vs

/-- True iff every try_write performed by sendAll reported success. -/
def sendAllOk {T : Type} : RingBuffer T → List T → Bool
  | _, [] => true
  | rb, v :: vs => (rb.try_write v).2.1 && sendAllOk (rb.try_write v).1 vs

/-- Performs `n` try_read calls in sequence and collects their results. -/
def recvList {T : Type} : RingBuffer T → Nat → List (Option T)
  | _, 0 => []
  | rb, n + 1 => (rb.try_read).2 :: recvList (rb.try_read).1 n

/-- Spells out the slot contents produced by a run of successful writes:
slots `k, k+1, ...` are overwritten with the values of `vs` in order. -/
def writeVals {T : Type} : List (Option T) → Nat → List T → List (Option T)
  | e, _, [] => e
  | e, k, v :: vs => writeVals (e.set k (some v)) (k + 1) vs

/-- Fuelled version of the drain loop `while self.try_read().is_some()` in
Drop for RingBuffer; `rb.size` fuel always suffices since at most
`size - 1` slots can be occupied. -/
def drainLoop {T : Type} : Nat → RingBuffer T → RingBuffer T × List T
  | 0, rb => (rb, [])
  | fuel + 1, rb =>
    match rb.try_read with
    | (rb1, some v) => ((drainLoop fuel rb1).1, v :: (drainLoop fuel rb1).2)
    | (_, none) => (rb, [])

/-- Drop for RingBuffer: the values finalized by the drain loop, paired with
the capacity argument `self.size + 1` that the body passes to
Vec::from_raw_parts when releasing the raw storage. -/
def RingBuffer.dropImpl {T : Type} (rb : RingBuffer T) : List T × Nat :=
  ((drainLoop rb.size rb).2, rb.size + 1)

end Spsc

namespace Triple

/-- Constant INDEX_MASK of src/triple_buffer.rs. -/
def INDEX_MASK : Nat := 0b0011

/-- Constant COMMIT_BIT of src/triple_buffer.rs. -/
def COMMIT_BIT : Nat := 0b0100

/-- Shallow embedding of struct Internal: the three always-full slots and
the atomic state word `committed`.  ManuallyDrop wrappers vanish in the
model; the list always has length three in reachable states. -/
structure Internal (T : Type) where
  buffers : List T
  committed : Nat
  deriving DecidableEq

/-- Combined state of the Writer and Reader handles sharing one Internal:
`write_index` is the Writer's private field, `read_index` the Reader's.
The Arc sharing collapses in the sequential model. -/
structure TBState (T : Type) where
  internal : Internal T
  write_index : Nat
  read_index : Nat
  deriving DecidableEq

/-- Writer::write: finalizes the current contents of the writer-private
slot (returned as the second component), writes `value` in place, swaps the
state word to `write_index | COMMIT_BIT`, and takes the index bits of the
previous word as the new private slot. -/
def write {T : Type} [Inhabited T] (s : TBState T) (value : T) :
    TBState T × T :=
  let value_old := s.internal.buffers.getD s.write_index default
  let last_committed := s.internal.committed
  ({ internal :=
      { buffers := s.internal.buffers.set s.write_index value,
        committed := s.write_index ||| COMMIT_BIT },
     write_index := last_committed &&& INDEX_MASK,
     read_index := s.read_index },
   value_old)

/-- Writer::commit_write_guard: the exchange performed when a WriteGuard is
dropped — identical to the commit step of write, with no slot write of its
own. -/
def commit_write_guard {T : Type} (s : TBState T) : TBState T :=
  let last_committed := s.internal.committed
  { s with
      internal := { s.internal with
        committed := s.write_index ||| COMMIT_BIT },
      write_index := last_committed &&& INDEX_MASK }

/-- Writer::get_mut followed by the guard going out of scope: the guard
exposes the writer-private slot for in-place mutation (an arbitrary function
`f` on its contents) and its Drop runs commit_write_guard. -/
def get_mut_commit {T : Type} [Inhabited T] (s : TBState T) (f : T → T) :
    TBState T :=
  commit_write_guard
    { s with
        internal := { s.internal with
          buffers := s.internal.buffers.set s.write_index
            (f (s.internal.buffers.getD s.write_index default)) } }

/-- Reader::read: if the COMMIT_BIT of the state word is set, swap the word
to the reader's current private index (flag cleared) and claim the index
bits of the previous word; then return the contents of the (possibly new)
reader-private slot. -/
def read {T : Type} [Inhabited T] (s : TBState T) : TBState T × T :=
  if s.internal.committed &&& COMMIT_BIT ≠ 0 then
    let last_committed := s.internal.committed
    let s1 : TBState T :=
      { s with
          internal := { s.internal with committed := s.read_index },
          read_index := last_committed &&& INDEX_MASK }
    (s1, s1.internal.buffers.getD s1.read_index default)
  else
    (s, s.internal.buffers.getD s.read_index default)

/-- Drop for Internal: every slot's current contents are finalized, in slot
order.  The result is the list of finalized values. -/
def Internal.dropSlots {T : Type} (i : Internal T) : List T :=
  i.buffers

/-- Function triple_buffer_explicit: three explicit initial slot values, the
state word `AtomicUsize::new(1)`, the Writer private index 2 and the Reader
private index 0. -/
def triple_buffer_explicit {T : Type} (initial_values : T × T × T) :
    TBState T :=
  { internal :=
      { buffers := [initial_values.1, initial_values.2.1, initial_values.2.2],
        committed := 1 },
    write_index := 2,
    read_index := 0 }

/-- Function triple_buffer: clones one initial value into all three slots
and delegates to triple_buffer_explicit. -/
def triple_buffer {T : Type} (initial_value : T) : TBState T :=
  triple_buffer_explicit (initial_value, initial_value, initial_value)

/-- States reachable from construction by any sequence of writes, write
guard commits (with arbitrary in-place mutations), and reads. -/
inductive Reachable {T : Type} [Inhabited T] : TBState T → Prop
  | explicit (iv : T × T × T) : Reachable (triple_buffer_explicit iv)
  | cloned (x : T) : Reachable (triple_buffer x)
  | write (s : TBState T) (v : T) : Reachable s → Reachable (write s v).1
  | guard (s : TBState T) (f : T → T) :
      Reachable s → Reachable (get_mut_commit s f)
  | read (s : TBState T) : Reachable s → Reachable (read s).1

/-- Statement of the partition of roles: the writer-private index, the slot
index stored in the state word, and the reader-private index are pairwise
distinct. -/
def disjointRoles {T : Type} (s : TBState T) : Prop :=
  s.write_index ≠ s.internal.committed &&& INDEX_MASK ∧
  s.write_index ≠ s.read_index ∧
  s.internal.committed &&& INDEX_MASK ≠ s.read_index

/-- The ownership-partition invariant: three slots, all three role indices
in range, and the writer-private, shared (index bits of the state word) and
reader-private roles pairwise disjoint. -/
def Inv {T : Type} (s : TBState T) : Prop :=
  s.internal.buffers.length = 3 ∧
  s.write_index < 3 ∧
  s.read_index < 3 ∧
  s.internal.committed &&& INDEX_MASK < 3 ∧
  s.write_index ≠ s.read_index ∧
  s.write_index ≠ s.internal.committed &&& INDEX_MASK ∧
  s.read_index ≠ s.internal.committed &&& INDEX_MASK

end Triple

namespace Spsc

theorem getD_set_self {α : Type} (l : List α) {i : Nat} (h : i < l.length)
    (a d : α) : (l.set i a).getD i d = a := by
  simp [List.getD_eq_getElem?_getD, List.getElem?_set_self h]

theorem getD_set_ne {α : Type} (l : List α) {i j : Nat} (h : i ≠ j)
    (a d : α) : (l.set i a).getD j d = l.getD j d := by
  simp [List.getD_eq_getElem?_getD, List.getElem?_set_ne h]

theorem writeVals_length {T : Type} (vs : List T) :
    ∀ (e : List (Option T)) (k : Nat), (writeVals e k vs).length = e.length := by
  induction vs with
  | nil => intro e k; rfl
  | cons v vs ih =>
    intro e k
    rw [writeVals, ih]
    simp

theorem writeVals_getD_lt {T : Type} (vs : List T) :
    ∀ (e : List (Option T)) (k j : Nat), j < k →
      (writeVals e k vs).getD j none = e.getD j none := by
  induction vs with
  | nil => intro e k j _; rfl
  | cons v vs ih =>
    intro e k j hj
    rw [writeVals, ih _ _ _ (by omega), getD_set_ne _ (by omega)]

theorem writeVals_getD_mem {T : Type} (vs : List T) :
    ∀ (e : List (Option T)) (k j : Nat), j < vs.length →
      k + vs.length ≤ e.length →
      (writeVals e k vs).getD (k + j) none = vs[j]? := by
  induction vs with
  | nil => intro e k j hj _; exact absurd hj (by simp)
  | cons v vs ih =>
    intro e k j hj hk
    have hk' : k + vs.length + 1 ≤ e.length := by simpa [Nat.add_assoc] using hk
    have hlen2 : (e.set k (some v)).length = e.length := by simp
    match j with
    | 0 =>
      have h0 := writeVals_getD_lt vs (e.set k (some v)) (k + 1) k (by omega)
      rw [writeVals]
      simp only [Nat.add_zero]
      rw [h0, getD_set_self e (by omega) (some v) none]
      simp
    | j + 1 =>
      have harith : k + (j + 1) = (k + 1) + j := by omega
      have hj' : j < vs.length := by simpa using hj
      rw [writeVals, harith]
      rw [ih _ _ _ hj' (by rw [hlen2]; omega)]
      simp

theorem sendAll_spec {T : Type} (vs : List T) :
    ∀ (e : List (Option T)) (N k : Nat), e.length = N + 1 →
      k + vs.length ≤ N →
      sendAll ⟨e, N + 1, k, 0⟩ vs =
        ⟨writeVals e k vs, N + 1, k + vs.length, 0⟩ ∧
      sendAllOk ⟨e, N + 1, k, 0⟩ vs = true := by
  induction vs with
  | nil =>
    intro e N k _ _
    exact ⟨rfl, rfl⟩
  | cons v vs ih =>
    intro e N k hlen hk
    have hk' : k + vs.length + 1 ≤ N := by simpa [Nat.add_assoc] using hk
    have hav : available_write k 0 (N + 1) ≠ 0 := by
      unfold available_write
      rw [if_pos (Nat.zero_le k)]
      omega
    have hmod : (k + 1) % (N + 1) = k + 1 := Nat.mod_eq_of_lt (by omega)
    have hstep : RingBuffer.try_write ⟨e, N + 1, k, 0⟩ v =
        (⟨e.set k (some v), N + 1, k + 1, 0⟩, true, []) := by
      simp [RingBuffer.try_write, hav, hmod]
    obtain ⟨h1, h2⟩ := ih (e.set k (some v)) N (k + 1)
      (by simpa using hlen) (by omega)
    refine ⟨?_, ?_⟩
    · rw [sendAll, hstep]
      simp only [h1, writeVals]
      congr 1
      simp
      omega
    · rw [sendAllOk, hstep]
      simpa using h2

theorem recvList_spec {T : Type} (vs : List T) :
    ∀ (e : List (Option T)) (N j : Nat), j + vs.length ≤ N →
      (∀ i, i < vs.length → e.getD (j + i) none = vs[i]?) →
      recvList (⟨e, N + 1, j + vs.length, j⟩ : RingBuffer T)
        (vs.length + 1) = vs.map some ++ [none] := by
  induction vs with
  | nil =>
    intro e N j _ _
    simp [recvList, RingBuffer.try_read, available_read]
  | cons v vs ih =>
    intro e N j hj hslots
    have hj' : j + vs.length + 1 ≤ N := by simpa [Nat.add_assoc] using hj
    have hav : available_read (j + (vs.length + 1)) j (N + 1) ≠ 0 := by
      unfold available_read
      rw [if_pos (Nat.le_add_right j (vs.length + 1))]
      omega
    have hmod : (j + 1) % (N + 1) = j + 1 := Nat.mod_eq_of_lt (by omega)
    have hval : e[j]?.getD none = some v := by
      have := hslots 0 (by simp)
      simpa using this
    have hstep : RingBuffer.try_read (⟨e, N + 1, j + (vs.length + 1), j⟩ : RingBuffer T) =
        (⟨e, N + 1, j + (vs.length + 1), j + 1⟩, some v) := by
      simp [RingBuffer.try_read, hav, hmod, hval]
    have harith : j + (vs.length + 1) = (j + 1) + vs.length := by omega
    have ihres := ih e N (j + 1) (by omega)
      (fun i hi => by
        have hs := hslots (i + 1) (by simpa using Nat.succ_lt_succ hi)
        have heq : j + (i + 1) = (j + 1) + i := by omega
        rw [heq] at hs
        simpa using hs)
    simp only [List.length_cons]
    rw [recvList, hstep]
    simp only [harith]
    rw [ihres]
    simp

/-- C1: for every capacity N at least 1 and every sequence of n ≤ N values
sent into a fresh channel with no interleaved receives, all n try_send
calls succeed, and the following try_recv calls return Some v1, ..., Some vn
in that order, with the (n+1)-th try_recv returning None. -/
theorem fifo_order {T : Type} (N : Nat) (vs : List T) (_hN : 1 ≤ N)
    (hvs : vs.length ≤ N) :
    sendAllOk (RingBuffer.init T N) vs = true ∧
    recvList (sendAll (RingBuffer.init T N) vs) (vs.length + 1) =
      vs.map some ++ [none] := by
  obtain ⟨hstate, hok⟩ := sendAll_spec vs (List.replicate (N + 1) none) N 0
    (by simp) (by omega)
  have init_eq : RingBuffer.init T N =
      ⟨List.replicate (N + 1) none, N + 1, 0, 0⟩ := rfl
  refine ⟨by rw [init_eq, hok], ?_⟩
  rw [init_eq, hstate]
  exact recvList_spec vs (writeVals (List.replicate (N + 1) none) 0 vs) N 0
    (by omega)
    (fun i hi => writeVals_getD_mem vs (List.replicate (N + 1) none) 0 i hi
      (by simp; omega))

/-- Witness for fifo_order at capacity 2 with values 10, 20. -/
theorem fifo_order_witness :
    sendAllOk (RingBuffer.init Nat 2) [10, 20] = true ∧
    recvList (sendAll (RingBuffer.init Nat 2) [10, 20]) 3 =
      [some 10, some 20, none] :=
  fifo_order 2 [10, 20] (by decide) (by decide)

/-- C4: starting from a fresh channel of capacity N, all N try_send calls
of an arbitrary value sequence succeed, and the (N+1)-th try_send returns
false, finalizes the offered value (the third component of the result),
and returns the channel state completely unchanged. -/
theorem capacity_boundary {T : Type} (N : Nat) (_hN : 1 ≤ N) (vs : List T)
    (hlen : vs.length = N) (v : T) :
    sendAllOk (RingBuffer.init T N) vs = true ∧
    (sendAll (RingBuffer.init T N) vs).try_write v =
      (sendAll (RingBuffer.init T N) vs, false, [v]) := by
  obtain ⟨hstate, hok⟩ := sendAll_spec vs (List.replicate (N + 1) none) N 0
    (by simp) (by omega)
  have init_eq : RingBuffer.init T N =
      ⟨List.replicate (N + 1) none, N + 1, 0, 0⟩ := rfl
  refine ⟨by rw [init_eq, hok], ?_⟩
  rw [init_eq, hstate]
  have hav : available_write vs.length 0 (N + 1) = 0 := by
    unfold available_write
    rw [if_pos (Nat.zero_le _)]
    omega
  simp [RingBuffer.try_write, hav]

/-- Witness for capacity_boundary at capacity 1. -/
theorem capacity_boundary_witness :
    sendAllOk (RingBuffer.init Nat 1) [7] = true ∧
    (sendAll (RingBuffer.init Nat 1) [7]).try_write 9 =
      (sendAll (RingBuffer.init Nat 1) [7], false, [9]) :=
  capacity_boundary 1 (by decide) [7] (by decide) 9

/-- C7: RingBuffer::clear, as exposed by Sender::clear, zeroes both cursors
unconditionally in every state and changes nothing else: the slot contents
and the size field (standing in for the storage pointer and its length) are
untouched, and no value is finalized. -/
theorem clear_resets_cursors_only {T : Type} (rb : RingBuffer T) :
    (rb.clear).1.write_index = 0 ∧ (rb.clear).1.read_index = 0 ∧
    (rb.clear).1.entries = rb.entries ∧ (rb.clear).1.size = rb.size ∧
    (rb.clear).2 = [] :=
  ⟨rfl, rfl, rfl, rfl, rfl⟩

/-- C8 evaluation: for a capacity-1 channel holding one unread value, the
Drop implementation drains that value exactly once, but the capacity it
passes to Vec::from_raw_parts is size + 1 = 3, while construction allocated
capacity + 1 = 2 slots — the raw storage released is not the block that was
allocated. -/
theorem dropImpl_frees_wrong_capacity :
    (((RingBuffer.init Nat 1).try_write 42).1).dropImpl = ([42], 3) ∧
    (RingBuffer.init Nat 1).entries.length = 2 ∧ (1 + 1 : Nat) ≠ 3 := by
  decide

/-- C9: channel construction with capacity zero fails fast (the assert in
RingBuffer::new panics, modelled as None), and every positive capacity
constructs successfully. -/
theorem channel_zero_capacity_aborts {T : Type} :
    channel T 0 = none ∧ ∀ c : Nat, 0 < c → (channel T c).isSome = true := by
  refine ⟨rfl, ?_⟩
  intro c hc
  simp [channel, RingBuffer.new, hc]

/-- Witness for channel_zero_capacity_aborts at element type Nat and
capacity 1. -/
theorem channel_zero_capacity_aborts_witness :
    channel Nat 0 = none ∧ (channel Nat 1).isSome = true :=
  ⟨(@channel_zero_capacity_aborts Nat).1,
   (@channel_zero_capacity_aborts Nat).2 1 (by decide)⟩

end Spsc

namespace Triple

theorem or_commit_and_mask {w : Nat} (hw : w < 3) :
    (w ||| COMMIT_BIT) &&& INDEX_MASK = w := by
  interval_cases w <;> decide

theorem and_mask_of_lt {r : Nat} (hr : r < 3) : r &&& INDEX_MASK = r := by
  interval_cases r <;> decide

theorem or_commit_and_commit {w : Nat} (hw : w < 3) :
    (w ||| COMMIT_BIT) &&& COMMIT_BIT ≠ 0 := by
  interval_cases w <;> decide

theorem and_commit_of_lt {r : Nat} (hr : r < 3) : r &&& COMMIT_BIT = 0 := by
  interval_cases r <;> decide

theorem reachable_inv {T : Type} [Inhabited T] (s : TBState T)
    (hs : Reachable s) : Inv s := by
  induction hs with
  | explicit iv =>
    refine ⟨rfl, ?_, ?_, ?_, ?_, ?_, ?_⟩ <;>
      · simp only [triple_buffer_explicit]
        decide
  | cloned x =>
    refine ⟨rfl, ?_, ?_, ?_, ?_, ?_, ?_⟩ <;>
      · simp only [triple_buffer, triple_buffer_explicit]
        decide
  | write s v _ ih =>
    obtain ⟨h3, hw, hr, hc, hwr, hwc, hrc⟩ := ih
    refine ⟨?_, ?_, ?_, ?_, ?_, ?_, ?_⟩ <;>
      simp only [write, List.length_set, or_commit_and_mask hw]
    · exact h3
    · exact hc
    · exact hr
    · exact hw
    · exact fun h => hrc h.symm
    · exact fun h => hwc h.symm
    · exact fun h => hwr h.symm
  | guard s f _ ih =>
    obtain ⟨h3, hw, hr, hc, hwr, hwc, hrc⟩ := ih
    refine ⟨?_, ?_, ?_, ?_, ?_, ?_, ?_⟩ <;>
      simp only [get_mut_commit, commit_write_guard, List.length_set,
        or_commit_and_mask hw]
    · exact h3
    · exact hc
    · exact hr
    · exact hw
    · exact fun h => hrc h.symm
    · exact fun h => hwc h.symm
    · exact fun h => hwr h.symm
  | read s _ ih =>
    obtain ⟨h3, hw, hr, hc, hwr, hwc, hrc⟩ := ih
    by_cases h : s.internal.committed &&& COMMIT_BIT ≠ 0
    · refine ⟨?_, ?_, ?_, ?_, ?_, ?_, ?_⟩ <;>
        simp only [read, if_pos h, and_mask_of_lt hr]
      · exact h3
      · exact hw
      · exact hc
      · exact hr
      · exact hwc
      · exact hwr
      · exact fun heq => hrc heq.symm
    · refine ⟨?_, ?_, ?_, ?_, ?_, ?_, ?_⟩ <;>
        simp only [read, if_neg h]
      · exact h3
      · exact hw
      · exact hr
      · exact hc
      · exact hwr
      · exact hwc
      · exact hrc

/-- C2: in every reachable state of the triple buffer the writer-private
slot index, the slot index in the shared state word, and the reader-private
slot index are pairwise distinct, and write, the write guard commit, and
read each preserve this disjointness. -/
theorem roles_pairwise_disjoint {T : Type} [Inhabited T] (s : TBState T)
    (hs : Reachable s) :
    disjointRoles s ∧
    (∀ v : T, disjointRoles (write s v).1) ∧
    (∀ f : T → T, disjointRoles (get_mut_commit s f)) ∧
    disjointRoles (read s).1 := by
  have pack : ∀ s1 : TBState T, Inv s1 → disjointRoles s1 := by
    intro s1 h
    obtain ⟨_, _, _, _, h5, h6, h7⟩ := h
    exact ⟨h6, h5, Ne.symm h7⟩
  refine ⟨pack s (reachable_inv s hs), ?_, ?_, ?_⟩
  · intro v
    exact pack _ (reachable_inv _ (Reachable.write s v hs))
  · intro f
    exact pack _ (reachable_inv _ (Reachable.guard s f hs))
  · exact pack _ (reachable_inv _ (Reachable.read s hs))

/-- Witness for roles_pairwise_disjoint at an explicitly constructed
buffer, one write, and one read. -/
theorem roles_pairwise_disjoint_witness :
    disjointRoles (triple_buffer_explicit ((5 : Nat), 6, 7)) ∧
    disjointRoles (write (triple_buffer_explicit ((5 : Nat), 6, 7)) 8).1 ∧
    disjointRoles (read (triple_buffer_explicit ((5 : Nat), 6, 7))).1 :=
  have h := roles_pairwise_disjoint (triple_buffer_explicit ((5 : Nat), 6, 7))
    (Reachable.explicit (5, 6, 7))
  ⟨h.1, h.2.1 8, h.2.2.2⟩

/-- C10: in every reachable state the three role indices all lie below 3
(the encodable index 3 never occurs) and the slot array has length 3, so
every slot access performed by write, get_mut, and read is in bounds. -/
theorem indices_in_bounds {T : Type} [Inhabited T] (s : TBState T)
    (hs : Reachable s) :
    s.internal.buffers.length = 3 ∧
    s.write_index < 3 ∧ s.read_index < 3 ∧
    s.internal.committed &&& INDEX_MASK < 3 := by
  obtain ⟨h1, h2, h3, h4, _, _, _⟩ := reachable_inv s hs
  exact ⟨h1, h2, h3, h4⟩

/-- Witness for indices_in_bounds at a buffer built by triple_buffer. -/
theorem indices_in_bounds_witness :
    (triple_buffer (9 : Nat)).internal.buffers.length = 3 ∧
    (triple_buffer (9 : Nat)).write_index < 3 ∧
    (triple_buffer (9 : Nat)).read_index < 3 ∧
    (triple_buffer (9 : Nat)).internal.committed &&& INDEX_MASK < 3 :=
  indices_in_bounds (triple_buffer 9) (Reachable.cloned 9)

/-- C3 counterexample: immediately after construction the slot index
encoded in the shared state word is 1, not 0 — the word is initialized to
AtomicUsize::new(1). -/
theorem initial_committed_index_ne_zero :
    ¬ ((triple_buffer_explicit ((0 : Nat), 0, 0)).internal.committed &&&
        INDEX_MASK = 0) := by
  decide

/-- C3 amended: immediately after construction by triple_buffer or
triple_buffer_explicit, the shared state word encodes slot index 1 as the
committed slot with the unread flag clear, the reader-private index is 0,
and the writer-private index is 2. -/
theorem initial_state_spec {T : Type} (iv : T × T × T) (x : T) :
    ((triple_buffer_explicit iv).internal.committed &&& INDEX_MASK = 1 ∧
     (triple_buffer_explicit iv).internal.committed &&& COMMIT_BIT = 0 ∧
     (triple_buffer_explicit iv).read_index = 0 ∧
     (triple_buffer_explicit iv).write_index = 2) ∧
    ((triple_buffer x).internal.committed &&& INDEX_MASK = 1 ∧
     (triple_buffer x).internal.committed &&& COMMIT_BIT = 0 ∧
     (triple_buffer x).read_index = 0 ∧
     (triple_buffer x).write_index = 2) := by
  refine ⟨⟨?_, ?_, rfl, rfl⟩, ⟨?_, ?_, rfl, rfl⟩⟩ <;>
    simp [triple_buffer, triple_buffer_explicit, INDEX_MASK, COMMIT_BIT]

/-- C6: read is idempotent between writes.  When the unread flag is clear,
read performs no exchange and returns the current reader slot contents with
the state unchanged; and after any read, a second read with no intervening
write returns the identical state and the identical value, i.e. a reference
to the same slot holding the same value. -/
theorem read_idempotent {T : Type} [Inhabited T] (s : TBState T)
    (hs : Reachable s) :
    (s.internal.committed &&& COMMIT_BIT = 0 →
      read s = (s, s.internal.buffers.getD s.read_index default)) ∧
    read (read s).1 = ((read s).1, (read s).2) := by
  obtain ⟨_, _, hr, _, _, _, _⟩ := reachable_inv s hs
  refine ⟨fun h => by simp [read, h], ?_⟩
  by_cases h : s.internal.committed &&& COMMIT_BIT = 0
  · simp [read, h]
  · simp [read, h, and_commit_of_lt hr]

theorem latest_wins_aux {T : Type} [Inhabited T] [DecidableEq T]
    (x0 x1 x2 : T) (c w r : Nat) (a b : T)
    (hw : w < 3) (hr : r < 3) (hc : c &&& INDEX_MASK < 3)
    (hwr : w ≠ r) (hwc : w ≠ c &&& INDEX_MASK) (hrc : r ≠ c &&& INDEX_MASK)
    (ha0 : a ≠ x0) (ha1 : a ≠ x1) (ha2 : a ≠ x2) (hab : a ≠ b) :
    (read (write (write ⟨⟨[x0, x1, x2], c⟩, w, r⟩ a).1 b).1).2 = b ∧
    List.count a
      ((write (⟨⟨[x0, x1, x2], c⟩, w, r⟩ : TBState T) a).2 ::
       (write (write ⟨⟨[x0, x1, x2], c⟩, w, r⟩ a).1 b).2 ::
       Internal.dropSlots
         (read (write (write ⟨⟨[x0, x1, x2], c⟩, w, r⟩ a).1 b).1).1.internal)
      = 1 ∧
    (read (write (write ⟨⟨[x0, x1, x2], c⟩, w, r⟩ a).1 b).1).2 ≠ a := by
  have hba : b ≠ a := Ne.symm hab
  have h4 : (4 : Nat) &&& 3 = 0 := by decide
  have h5 : (5 : Nat) &&& 3 = 1 := by decide
  have h6 : (6 : Nat) &&& 3 = 2 := by decide
  have hw3 : w = 0 ∨ w = 1 ∨ w = 2 := by omega
  have hr3 : r = 0 ∨ r = 1 ∨ r = 2 := by omega
  have hkc : c &&& INDEX_MASK = 0 ∨ c &&& INDEX_MASK = 1 ∨
      c &&& INDEX_MASK = 2 := by omega
  rcases hw3 with rfl | rfl | rfl <;> rcases hr3 with rfl | rfl | rfl <;>
    rcases hkc with hk | hk | hk <;>
    simp_all [write, read, Internal.dropSlots, INDEX_MASK, COMMIT_BIT,
      List.count_cons]

/-- C5: for every reachable triple buffer state, writing a value a and then
a value b with no read in between and then reading once yields b; across
the remaining lifetime trace — the finalizations performed by the two
writes followed by the teardown finalization of all three slots — the
superseded value a is finalized exactly once, and the read never returns
it.  The freshness hypotheses make the occurrence count of a meaningful. -/
theorem latest_wins {T : Type} [Inhabited T] [DecidableEq T]
    (s : TBState T) (hs : Reachable s) (a b : T)
    (ha : a ∉ s.internal.buffers) (hab : a ≠ b) :
    (read (write (write s a).1 b).1).2 = b ∧
    List.count a ((write s a).2 :: (write (write s a).1 b).2 ::
      Internal.dropSlots (read (write (write s a).1 b).1).1.internal) = 1 ∧
    (read (write (write s a).1 b).1).2 ≠ a := by
  obtain ⟨h3, hw, hr, hc, hwr, hwc, hrc⟩ := reachable_inv s hs
  obtain ⟨x0, x1, x2, hbuf⟩ := List.length_eq_three.mp h3
  rw [hbuf] at ha
  simp only [List.mem_cons, List.not_mem_nil, or_false, not_or] at ha
  obtain ⟨ha0, ha1, ha2⟩ := ha
  have hseq : s = ⟨⟨[x0, x1, x2], s.internal.committed⟩, s.write_index,
      s.read_index⟩ := by
    rw [← hbuf]
  rw [hseq]
  exact latest_wins_aux x0 x1 x2 s.internal.committed s.write_index
    s.read_index a b hw hr hc hwr hwc hrc ha0 ha1 ha2 hab

/-- Witness for latest_wins: explicit construction with slots 1, 2, 3,
writing 10 then 20 and reading. -/
theorem latest_wins_witness :
    (read (write (write (triple_buffer_explicit ((1 : Nat), 2, 3)) 10).1
        20).1).2 = 20 ∧
    List.count 10
      ((write (triple_buffer_explicit ((1 : Nat), 2, 3)) 10).2 ::
       (write (write (triple_buffer_explicit ((1 : Nat), 2, 3)) 10).1 20).2 ::
       Internal.dropSlots
         (read (write (write (triple_buffer_explicit ((1 : Nat), 2, 3)) 10).1
           20).1).1.internal) = 1 ∧
    (read (write (write (triple_buffer_explicit ((1 : Nat), 2, 3)) 10).1
        20).1).2 ≠ 10 :=
  latest_wins (triple_buffer_explicit (1, 2, 3))
    (Reachable.explicit (1, 2, 3)) 10 20 (by decide) (by decide)

/-- Witness for read_idempotent at an explicitly constructed buffer, whose
state word has the unread flag clear. -/
theorem read_idempotent_witness :
    read (triple_buffer_explicit ((3 : Nat), 4, 5)) =
      (triple_buffer_explicit ((3 : Nat), 4, 5), 3) ∧
    read (read (triple_buffer_explicit ((3 : Nat), 4, 5))).1 =
      ((read (triple_buffer_explicit ((3 : Nat), 4, 5))).1,
       (read (triple_buffer_explicit ((3 : Nat), 4, 5))).2) :=
  have h := read_idempotent (triple_buffer_explicit ((3 : Nat), 4, 5))
    (Reachable.explicit (3, 4, 5))
  ⟨h.1 (by decide), h.2⟩

end Triple
